import Mathlib

/-!
Verification of the diff/patch engine of the ai-code-review-assistant
repository.  Strings are modelled as lists of characters; file text is a
list of lines.  The frontend ledger (InteractiveReview.jsx), the display
numbering (ReviewSuggestionCard.jsx) and the fullscreen variant
(RepoList.jsx) are embedded from the source; the diff parser /
reconstructor and the patch-application backend are not present under the
sources and are modelled from the specification where noted.
-/

/-- Character-list strings, the representation used throughout. -/
abbrev Str := List Char

/-- A file's text as a list of lines. -/
abbrev FileText := List Str

/-- `strStartsWith p l` is true when `p` is an initial segment of `l`
(JavaScript `l.startsWith(p)`). -/
def strStartsWith : Str → Str → Bool
  | [], _ => true
  | _ :: _, [] => false
  | p :: ps, c :: cs => p = c && strStartsWith ps cs

/-- Split a character list at every occurrence of `c`
(JavaScript `s.split(c)`; the empty string yields one empty piece). -/
def splitOnChar (c : Char) : Str → List Str
  | [] => [[]]
  | x :: xs =>
    if x = c then [] :: splitOnChar c xs
    else
      match splitOnChar c xs with
      | [] => [[x]]
      | y :: ys => (x :: y) :: ys

/-- Join lines with a newline character (inverse of `splitOnChar '\n'`). -/
def joinLines : List Str → Str
  | [] => []
  | [l] => l
  | l :: ls => l ++ '\n' :: joinLines ls

/-- Decimal digits to a natural number (JavaScript `parseInt(ds, 10)` on a
digit run). -/
def digitsToNat (ds : Str) : Nat :=
  ds.foldl (fun n c => n * 10 + (c.toNat - '0'.toNat)) 0

/-- Consume one expected character. -/
def expectChar (c : Char) : Str → Option Str
  | x :: xs => if x = c then some xs else none
  | [] => none

/-- Skip the regex piece `,?\d*`: an optional comma followed by digits. -/
def skipCommaDigits (cs : Str) : Str :=
  match cs with
  | ',' :: t => t.dropWhile Char.isDigit
  | _ => cs

/-- Match the hunk-header pattern `@@ -(\d+),?\d* \+(\d+),?\d* @@` at the
start of the input, returning the two captured numbers (the pattern of
`parseDiffHeader` in ReviewSuggestionCard.jsx; its greedy matching is
deterministic for this pattern). -/
def matchHunkAt (cs : Str) : Option (Nat × Nat) :=
  match ((((expectChar '@' cs).bind (expectChar '@')).bind
      (expectChar ' ')).bind (expectChar '-')) with
  | none => none
  | some r =>
    let ds1 := r.takeWhile Char.isDigit
    if ds1.isEmpty then none
    else
      match skipCommaDigits (r.dropWhile Char.isDigit) with
      | ' ' :: '+' :: r2 =>
        let ds2 := r2.takeWhile Char.isDigit
        if ds2.isEmpty then none
        else
          match skipCommaDigits (r2.dropWhile Char.isDigit) with
          | ' ' :: '@' :: '@' :: _ => some (digitsToNat ds1, digitsToNat ds2)
          | _ => none
      | _ => none

/-- Search the pattern anywhere in the line, leftmost match first
(JavaScript `line.match(...)`). -/
def searchHunkNums : Str → Option (Nat × Nat)
  | [] => none
  | c :: rest =>
    match matchHunkAt (c :: rest) with
    | some r => some r
    | none => searchHunkNums rest

/-- `parseDiffHeader` from ReviewSuggestionCard.jsx: extract the starting
line numbers from a `@@ -O,o +N,n @@` header, defaulting to `(1, 1)` when
the pattern is not found. -/
def parseDiffHeader (l : Str) : Nat × Nat :=
  (searchHunkNums l).getD (1, 1)

/-! ## Parsed diff model (spec section 3, "DiffLine" / "ParsedDiff") -/

/-- The kind of a parsed diff line. -/
inductive DiffKind
  | hunk
  | context
  | add
  | delete
deriving DecidableEq, Repr

/-- Modelled from the spec: `DiffLine` of section 3 — the structured,
line-addressable element produced by the diff parser (the parser itself,
`utils/diffParser`, is not under the sources; only its callers are). -/
structure DiffLine where
  kind : DiffKind
  content : Str
  oldLineNumber : Option Nat
  newLineNumber : Option Nat
deriving DecidableEq, Repr

/-- Modelled from the spec: `ParsedDiff` of section 3. -/
structure ParsedDiff where
  lines : List DiffLine
  oldFileName : Str
  newFileName : Str
  oldStart : Nat
  newStart : Nat
deriving DecidableEq, Repr

/-- Running state of the parser: whether a hunk header has been seen and
the two line counters. -/
structure PState where
  afterHeader : Bool
  oldN : Nat
  newN : Nat
deriving DecidableEq, Repr

/-- A hunk header per the spec's grammar `@@ -O,o +N,n @@`, anchored at
the start of the line (trailing section text is permitted, as in real
unified diffs). -/
def hunkHeaderNums (l : Str) : Option (Nat × Nat) := matchHunkAt l

/-- Modelled from the spec: one step of the diff parser (section 4.1,
`utils/diffParser` is not under the sources).  A hunk header emits a
`hunk` line with null numbers and initializes the counters; after the
first hunk header, lines are classified by leading character
(`-` delete, `+` add, space or empty context), consuming the counters;
lines before the first hunk header and unparsable lines are skipped
(`none`, state unchanged). -/
def classifyLine (s : PState) (l : Str) : Option (DiffLine × PState) :=
  match hunkHeaderNums l with
  | some (o, n) => some (⟨.hunk, l, none, none⟩, ⟨true, o, n⟩)
  | none =>
    if s.afterHeader then
      match l with
      | c :: rest =>
        if c = '-' then
          some (⟨.delete, rest, some s.oldN, none⟩,
            ⟨true, s.oldN + 1, s.newN⟩)
        else if c = '+' then
          some (⟨.add, rest, none, some s.newN⟩, ⟨true, s.oldN, s.newN + 1⟩)
        else if c = ' ' then
          some (⟨.context, rest, some s.oldN, some s.newN⟩,
            ⟨true, s.oldN + 1, s.newN + 1⟩)
        else none
      | [] =>
        some (⟨.context, [], some s.oldN, some s.newN⟩,
          ⟨true, s.oldN + 1, s.newN + 1⟩)
    else none

/-- Modelled from the spec: the parser's line loop (section 4.1). -/
def parseLinesFrom (s : PState) : List Str → List DiffLine
  | [] => []
  | l :: ls =>
    match classifyLine s l with
    | some (d, s') => d :: parseLinesFrom s' ls
    | none => parseLinesFrom s ls

/-- Strip a single leading path prefix from a diff file name
(`a/src/x.js` becomes `src/x.js`); used for `--- ` / `+++ ` lines. -/
def stripOnePathPrefix (s : Str) : Str :=
  if ('/' : Char) ∈ s then (s.dropWhile (· ≠ '/')).drop 1 else s

/-- Modelled from the spec: extraction of `oldFileName` / `newFileName`
(section 4.1): the first `--- ` line before the first hunk header sets the
old name, the first `+++ ` line the new name. -/
def extractFileNames : List Str → Str × Str
  | [] => ([], [])
  | l :: ls =>
    if (hunkHeaderNums l).isSome then ([], [])
    else if strStartsWith ['-', '-', '-', ' '] l then
      ((stripOnePathPrefix (l.drop 4)), (extractFileNames ls).2)
    else if strStartsWith ['+', '+', '+', ' '] l then
      ((extractFileNames ls).1, (stripOnePathPrefix (l.drop 4)))
    else extractFileNames ls

/-- Modelled from the spec: the starting numbers of the first hunk header,
defaulting to `(1, 1)` (the callers' fallback value in RepoList.jsx). -/
def firstHunkStarts : List Str → Nat × Nat
  | [] => (1, 1)
  | l :: ls =>
    match hunkHeaderNums l with
    | some (o, n) => (o, n)
    | none => firstHunkStarts ls

/-- Modelled from the spec: `parse(diffText) -> ParsedDiff` (section 4.1,
`utils/diffParser` is not under the sources).  Total on arbitrary input:
unparsable lines are skipped and a diff with no `@@` header yields an
empty line sequence. -/
def parseDiff (text : Str) : ParsedDiff :=
  let ls := splitOnChar '\n' text
  { lines := parseLinesFrom ⟨false, 0, 0⟩ ls
    oldFileName := (extractFileNames ls).1
    newFileName := (extractFileNames ls).2
    oldStart := (firstHunkStarts ls).1
    newStart := (firstHunkStarts ls).2 }

/-- Modelled from the spec: serialization of one `DiffLine`, the inverse
of the classification rules of section 4.1 (section 4.3). -/
def renderLine (d : DiffLine) : Str :=
  match d.kind with
  | .hunk => d.content
  | .delete => '-' :: d.content
  | .add => '+' :: d.content
  | .context => ' ' :: d.content

/-- The `--- a/<old>` / `+++ b/<new>` header lines emitted by the
reconstructor when the names are non-empty. -/
def reconstructHeaders (oldName newName : Str) : List Str :=
  (if oldName ≠ [] then [['-', '-', '-', ' ', 'a', '/'] ++ oldName] else []) ++
  (if newName ≠ [] then [['+', '+', '+', ' ', 'b', '/'] ++ newName] else [])

/-- Modelled from the spec: `reconstruct(oldFileName, newFileName, lines)`
(section 4.3) — emits `--- a/<old>` and `+++ b/<new>` headers when the
names are non-empty, then one line per `DiffLine`. -/
def reconstruct (oldName newName : Str) (lines : List DiffLine) : Str :=
  joinLines (reconstructHeaders oldName newName ++ lines.map renderLine)

/-! ## Display numbering of ReviewSuggestionCard.jsx
(`renderDiffWithContext` / `parseDiffHeader`) -/

/-- The display classification of one raw diff line in
`renderDiffWithContext`. -/
inductive RKind
  | fileHeader
  | hunkMarker
  | added
  | removed
  | ctxLine
  | plain
deriving DecidableEq, Repr

/-- One rendered row: its classification and the old/new line numbers it
displays (`null` when the side shows no number). -/
structure RenderedLine where
  kind : RKind
  oldNum : Option Nat
  newNum : Option Nat
deriving DecidableEq, Repr

/-- The mutable loop state of `renderDiffWithContext`: the two counters
and the `headerParsed` flag (only the FIRST `@@` header is parsed). -/
structure RState where
  oldLineNum : Nat
  newLineNum : Nat
  headerParsed : Bool
deriving DecidableEq, Repr

/-- One iteration of the `lines.map` body of `renderDiffWithContext`
(ReviewSuggestionCard.jsx): file headers and `@@` markers carry no
numbers; the first `@@` line initializes the counters via
`parseDiffHeader`; `+` lines show only the new number and advance only the
new counter; `-` lines only the old number and counter; space-prefixed
context lines show and advance both; anything else is unnumbered. -/
def rstep (st : RState) (l : Str) : RenderedLine × RState :=
  if strStartsWith ['-', '-', '-'] l || strStartsWith ['+', '+', '+'] l then
    (⟨.fileHeader, none, none⟩, st)
  else if strStartsWith ['@', '@'] l then
    if st.headerParsed then (⟨.hunkMarker, none, none⟩, st)
    else
      (⟨.hunkMarker, none, none⟩,
        ⟨(parseDiffHeader l).1, (parseDiffHeader l).2, true⟩)
  else if strStartsWith ['+'] l then
    (⟨.added, none, some st.newLineNum⟩,
      ⟨st.oldLineNum, st.newLineNum + 1, st.headerParsed⟩)
  else if strStartsWith ['-'] l then
    (⟨.removed, some st.oldLineNum, none⟩,
      ⟨st.oldLineNum + 1, st.newLineNum, st.headerParsed⟩)
  else if strStartsWith [' '] l then
    (⟨.ctxLine, some st.oldLineNum, some st.newLineNum⟩,
      ⟨st.oldLineNum + 1, st.newLineNum + 1, st.headerParsed⟩)
  else
    (⟨.plain, none, none⟩, st)

/-- The rendered rows produced from a list of raw lines, threading the
loop state. -/
def renderTraceFrom (st : RState) : List Str → List RenderedLine
  | [] => []
  | l :: ls => (rstep st l).1 :: renderTraceFrom (rstep st l).2 ls

/-- `renderDiffWithContext` (ReviewSuggestionCard.jsx) restricted to the
data it computes per line: split the diff text on newlines and number the
rows starting from counters `0, 0` with no header parsed. -/
def renderDiffWithContext (diff : Str) : List RenderedLine :=
  renderTraceFrom ⟨0, 0, false⟩ (splitOnChar '\n' diff)

/-! ## Patch application (spec section 4.4; the apply backend is not under
the sources — only its caller `handleApprove` in InteractiveReview.jsx) -/

/-- One body line of a hunk. -/
inductive BodyLine
  | ctx (content : Str)
  | del (content : Str)
  | add (content : Str)
deriving DecidableEq, Repr

/-- Modelled from the spec: a single hunk of a structured diff — the old
side starts at 1-based line `oldStart`; the context/delete lines of the
body carry the consecutive recorded old line numbers
`oldStart, oldStart+1, …`. -/
structure Hunk where
  oldStart : Nat
  body : List BodyLine
deriving DecidableEq, Repr

/-- The old-side lines of a hunk (context and delete), in order. -/
def oldLines (h : Hunk) : FileText :=
  h.body.filterMap fun b =>
    match b with
    | .ctx c => some c
    | .del c => some c
    | .add _ => none

/-- The number of old-side lines the hunk covers. -/
def oldCount (h : Hunk) : Nat := (oldLines h).length

/-- The new-side lines of a hunk (context and add), in order. -/
def newLines (h : Hunk) : FileText :=
  h.body.filterMap fun b =>
    match b with
    | .ctx c => some c
    | .add c => some c
    | .del _ => none

/-- Modelled from the spec: the staleness check of section 4.4 — locate
the diff's context/delete lines at their recorded line numbers in the base
content; true when every one matches. -/
def hunkMatches (base : FileText) (h : Hunk) : Bool :=
  decide ((base.drop (h.oldStart - 1)).take (oldCount h) = oldLines h)

/-- Replace the hunk's old-side region of the base content by its new
lines. -/
def spliceHunk (base : FileText) (h : Hunk) : FileText :=
  base.take (h.oldStart - 1) ++ newLines h ++
    base.drop (h.oldStart - 1 + oldCount h)

/-- Modelled from the spec: apply one hunk to base content, `none` when
its recorded lines do not match (stale). -/
def applyHunk (base : FileText) (h : Hunk) : Option FileText :=
  if hunkMatches base h then some (spliceHunk base h) else none

/-- The slice of `base` from position `pos` (0-based, inclusive) to `q`
(exclusive). -/
def sliceOf (base : FileText) (pos q : Nat) : FileText :=
  (base.drop pos).take (q - pos)

/-- Modelled from the spec: simultaneous application of a combined patch —
the hunks, given in ascending `oldStart` order, all refer to the SAME base
content; each contributes the untouched segment before it and its new
lines.  `none` if a hunk is out of order, overlaps the previous one, or
does not match the base. -/
def patchSpliceAux (base : FileText) (pos : Nat) : List Hunk → Option FileText
  | [] => some (base.drop pos)
  | h :: hs =>
    if pos ≤ h.oldStart - 1 ∧ hunkMatches base h then
      (patchSpliceAux base (h.oldStart - 1 + oldCount h) hs).map
        fun rest => sliceOf base pos (h.oldStart - 1) ++ newLines h ++ rest
    else none

/-- Modelled from the spec: apply a multi-hunk combined patch to base
content ("applying A and B as one combined patch", section 8). -/
def applyPatch (base : FileText) (hs : List Hunk) : Option FileText :=
  patchSpliceAux base 0 hs

/-! ## The review session ledger (InteractiveReview.jsx) -/

/-- A suggestion as held by the frontend.  `sid` is a surrogate for
JavaScript object identity (two structurally equal suggestion objects
produced by different renders have different `sid`); the remaining fields
mirror the source: the file path, the rationale text, the highlighted
line numbers, and the optional structured diff. -/
structure Suggestion where
  sid : Nat
  file : Str
  comment : Str
  highlighted_lines : List Nat
  diff : Option Hunk
deriving DecidableEq, Repr

/-- An element of `approvedChanges` as built in `handleApprove`
(InteractiveReview.jsx): the content before this fix, the modified
content, the rationale, and the first/last highlighted lines. -/
structure ApprovedChange where
  file : Str
  original_content : FileText
  modified_content : FileText
  suggestion : Str
  line_start : Option Nat
  line_end : Option Nat
deriving DecidableEq, Repr

/-- The session state of `InteractiveReview` (InteractiveReview.jsx):
the approved changes in approval order, the rejected suggestion objects
(a JavaScript `Set`, membership by object reference, hence a set of
`sid`s), and the per-file cumulative content (`fileContents`). -/
structure ReviewState where
  approvedChanges : List ApprovedChange
  rejectedSuggestions : Finset Nat
  fileContents : List (Str × FileText)
deriving DecidableEq

/-- Association-list lookup for `fileContents[file]`. -/
def lookupFC : List (Str × FileText) → Str → Option FileText
  | [], _ => none
  | (k, v) :: rest, f => if k = f then some v else lookupFC rest f

/-- `{...prev, [file]: content}`: update or append one file's content. -/
def updateFC : List (Str × FileText) → Str → FileText → List (Str × FileText)
  | [], f, v => [(f, v)]
  | (k, w) :: rest, f, v =>
    if k = f then (f, v) :: rest else (k, w) :: updateFC rest f v

/-- Decidable equality for `Except` results. -/
instance {e a : Type} [DecidableEq e] [DecidableEq a] :
    DecidableEq (Except e a) := fun x y =>
  match x, y with
  | .ok u, .ok v =>
    if h : u = v then isTrue (by rw [h])
    else isFalse (by intro hh; cases hh; exact h rfl)
  | .error u, .error v =>
    if h : u = v then isTrue (by rw [h])
    else isFalse (by intro hh; cases hh; exact h rfl)
  | .ok _, .error _ => isFalse (by intro hh; cases hh)
  | .error _, .ok _ => isFalse (by intro hh; cases hh)

/-- Errors of the patch-application path (spec sections 4.4 and 4.5). -/
inductive ApplyError
  | staleBase
  | conflict
  | unknownFile
  | noDiff
deriving DecidableEq, Repr

/-- The inclusive line range `[first, last]` of a suggestion's
`highlighted_lines`, when non-empty. -/
def rangeOf (s : Suggestion) : Option (Nat × Nat) :=
  match s.highlighted_lines.head?, s.highlighted_lines.getLast? with
  | some a, some b => some (a, b)
  | _, _ => none

/-- Whether two optional inclusive ranges intersect. -/
def rangesIntersect : Option (Nat × Nat) → Option (Nat × Nat) → Bool
  | some (a₁, b₁), some (a₂, b₂) => a₁ ≤ b₂ && a₂ ≤ b₁
  | _, _ => false

/-- Modelled from the spec: the overlap check of section 4.4 — whether the
suggestion's highlighted range intersects the recorded range of any
already-approved change for the same file. -/
def overlapsApproved (approved : List ApprovedChange) (file : Str)
    (s : Suggestion) : Bool :=
  approved.any fun c =>
    c.file = file &&
      match c.line_start, c.line_end, rangeOf s with
      | some a, some b, some r => rangesIntersect (some (a, b)) (some r)
      | _, _, _ => false

/-- Modelled from the spec: the `applySuggestion` backend call
(PatchApplier, section 4.4; not under the sources).  It performs the two
local checks and otherwise splices the suggestion's hunk into the current
content.  The overlap check is performed first: section 8's conflict
property requires `ConflictError` for an overlapping second approval even
though the first approval usually also made the overlapping diff stale. -/
def applySuggestion (approved : List ApprovedChange) (file : Str)
    (current : FileText) (s : Suggestion) : Except ApplyError FileText :=
  if overlapsApproved approved file s then .error .conflict
  else
    match s.diff with
    | none => .error .noDiff
    | some h =>
      if hunkMatches current h then .ok (spliceHunk current h)
      else .error .staleBase

/-- The approved-change record appended on success (`handleApprove`,
InteractiveReview.jsx): `original_content` is the content BEFORE this fix
(the cumulative state), not the initial file content. -/
def mkChange (s : Suggestion) (current modified : FileText) : ApprovedChange :=
  { file := s.file
    original_content := current
    modified_content := modified
    suggestion := s.comment
    line_start := s.highlighted_lines.head?
    line_end := s.highlighted_lines.getLast? }

/-- `handleApprove` (InteractiveReview.jsx) with its result made explicit:
read the file's cumulative content, call the apply operation with it, and
on success set `fileContents[file]` to the modified content and append the
approved change; every error leaves the state untouched (`catch` performs
no mutation). -/
def approveResult (st : ReviewState) (s : Suggestion) :
    Except ApplyError ReviewState :=
  match lookupFC st.fileContents s.file with
  | none => .error .unknownFile
  | some current =>
    match applySuggestion st.approvedChanges s.file current s with
    | .error e => .error e
    | .ok modified =>
      .ok { approvedChanges := st.approvedChanges ++ [mkChange s current modified]
            rejectedSuggestions := st.rejectedSuggestions
            fileContents := updateFC st.fileContents s.file modified }

/-- `handleApprove` as a state transformer: the state after the approval
attempt (unchanged whenever the apply operation errors). -/
def handleApprove (st : ReviewState) (s : Suggestion) : ReviewState :=
  match approveResult st s with
  | .ok st' => st'
  | .error _ => st

/-- `handleReject` (InteractiveReview.jsx): add the suggestion OBJECT to
the rejected set (JavaScript `Set` membership is by object reference,
modelled by `sid`). -/
def handleReject (st : ReviewState) (s : Suggestion) : ReviewState :=
  { st with rejectedSuggestions := insert s.sid st.rejectedSuggestions }

/-- The `isApproved` test of the `activeSuggestions` filter
(InteractiveReview.jsx): some approved change has the same file and the
same `line_start` as the suggestion's first highlighted line. -/
def isApprovedSugg (st : ReviewState) (file : Str) (s : Suggestion) : Bool :=
  st.approvedChanges.any fun c =>
    c.file = file && c.line_start = s.highlighted_lines.head?

/-- `activeSuggestions` (InteractiveReview.jsx): the suggestions of a file
that are neither in the rejected set (by object identity) nor matched by
an approved change (by file and first highlighted line). -/
def activeSuggestions (st : ReviewState) (file : Str)
    (suggs : List Suggestion) : List Suggestion :=
  suggs.filter fun s =>
    ¬ s.sid ∈ st.rejectedSuggestions && ¬ isApprovedSugg st file s

/-- `handledCount` (InteractiveReview.jsx line 302):
`approvedChanges.length + rejectedSuggestions.size`. -/
def handledCount (st : ReviewState) : Nat :=
  st.approvedChanges.length + st.rejectedSuggestions.card

/-- The reported progress of `InteractiveReview` (line 303):
`totalSuggestions === 0 ? 100 : (handledCount / totalSuggestions) * 100`. -/
def progress (totalSuggestions : Nat) (st : ReviewState) : ℚ :=
  if totalSuggestions = 0 then 100
  else ((handledCount st : ℚ) / totalSuggestions) * 100

/-- The outcome of attempting to finalize the review. -/
inductive FinalizeResult
  | notReady
  | nothingToPublish
  | invalidChanges
  | changes (cs : List ApprovedChange)
deriving DecidableEq

/-- `handleFinalize` (InteractiveReview.jsx lines 370–391) together with
its rendering guard (line 442): the Create-PR action exists only when
`handledCount === totalSuggestions && totalSuggestions > 0` (otherwise the
session is not ready); with zero approved changes it refuses with
"No changes approved"; approved changes missing a file or modified
content are refused; otherwise the approved changes are returned. -/
def handleFinalize (totalSuggestions : Nat) (st : ReviewState) :
    FinalizeResult :=
  if handledCount st = totalSuggestions ∧ 0 < totalSuggestions then
    if st.approvedChanges.length = 0 then .nothingToPublish
    else if st.approvedChanges.any
        (fun c => c.file = [] || c.modified_content = []) then
      .invalidChanges
    else .changes st.approvedChanges
  else .notReady

/-- A user action on the session. -/
inductive Op
  | approveOp (s : Suggestion)
  | rejectOp (s : Suggestion)

/-- Run a sequence of approve/reject actions. -/
def runOps (st : ReviewState) : List Op → ReviewState
  | [] => st
  | .approveOp s :: ops => runOps (handleApprove st s) ops
  | .rejectOp s :: ops => runOps (handleReject st s) ops

/-! ## The fullscreen review variant (RepoList.jsx, `FullscreenReview`) -/

/-- The state of `FullscreenReview` (RepoList.jsx): approved changes and
the rejected `globalIndex` keys (`file-idx`, modelled as pairs). -/
structure FsState where
  approvedChanges : List ApprovedChange
  rejectedIssues : Finset (Str × Nat)
deriving DecidableEq

/-- `handleRejectIssue` (RepoList.jsx): record the issue's global index as
rejected. -/
def handleRejectIssue (st : FsState) (gidx : Str × Nat) : FsState :=
  { st with rejectedIssues := insert gidx st.rejectedIssues }

/-- The progress value rendered by `FullscreenReview` (RepoList.jsx lines
874–879): `(approvedChanges.length / totalIssues) * 100` — rejected-only
issues do not advance it. -/
def fullscreenProgress (totalIssues : Nat) (st : FsState) : ℚ :=
  ((st.approvedChanges.length : ℚ) / totalIssues) * 100

/-! ## Helper lemmas -/

theorem lookupFC_updateFC_self (m : List (Str × FileText)) (k : Str)
    (v : FileText) : lookupFC (updateFC m k v) k = some v := by
  induction m with
  | nil => simp [updateFC, lookupFC]
  | cons p rest ih =>
    obtain ⟨a, b⟩ := p
    by_cases hk : a = k
    · simp [updateFC, hk, lookupFC]
    · simp [updateFC, hk, lookupFC, ih]

theorem approveResult_ok (st : ReviewState) (s : Suggestion)
    (st' : ReviewState) (h : approveResult st s = .ok st') :
    ∃ cur modified, lookupFC st.fileContents s.file = some cur ∧
      applySuggestion st.approvedChanges s.file cur s = .ok modified ∧
      st' = { approvedChanges := st.approvedChanges ++ [mkChange s cur modified]
              rejectedSuggestions := st.rejectedSuggestions
              fileContents := updateFC st.fileContents s.file modified } := by
  unfold approveResult at h
  split at h
  · simp at h
  · next cur hl =>
    split at h
    · simp at h
    · next m ha =>
      simp only [Except.ok.injEq] at h
      exact ⟨cur, m, hl, ha, h.symm⟩

theorem rangeOf_eq_some (s : Suggestion) (a b : Nat)
    (h : rangeOf s = some (a, b)) :
    s.highlighted_lines.head? = some a ∧
      s.highlighted_lines.getLast? = some b := by
  unfold rangeOf at h
  cases hh : s.highlighted_lines.head? with
  | none => rw [hh] at h; simp at h
  | some x =>
    cases hg : s.highlighted_lines.getLast? with
    | none => rw [hh, hg] at h; simp at h
    | some y =>
      rw [hh, hg] at h
      simp only [Option.some.injEq, Prod.mk.injEq] at h
      obtain ⟨h1, h2⟩ := h
      subst h1; subst h2
      exact ⟨rfl, rfl⟩

theorem rangesIntersect_some (r₁ r₂ : Option (Nat × Nat))
    (h : rangesIntersect r₁ r₂ = true) :
    ∃ a₁ b₁ a₂ b₂, r₁ = some (a₁, b₁) ∧ r₂ = some (a₂, b₂) := by
  cases r₁ with
  | none => simp [rangesIntersect] at h
  | some p =>
    cases r₂ with
    | none => obtain ⟨x, y⟩ := p; simp [rangesIntersect] at h
    | some q =>
      obtain ⟨x, y⟩ := p; obtain ⟨u, v⟩ := q
      exact ⟨x, y, u, v, rfl, rfl⟩

theorem parseLinesFrom_skip (o n : Nat) (hs rest : List Str)
    (h : ∀ l ∈ hs, hunkHeaderNums l = none) :
    parseLinesFrom ⟨false, o, n⟩ (hs ++ rest) =
      parseLinesFrom ⟨false, o, n⟩ rest := by
  induction hs with
  | nil => rfl
  | cons l ls ih =>
    have hl := h l (List.mem_cons_self l ls)
    simp only [List.cons_append, parseLinesFrom, classifyLine, hl]
    exact ih fun x hx => h x (List.mem_cons_of_mem _ hx)

/-! ## Claim C5 -/

/-- C5: the diff parser is total — it is a function on arbitrary input
text — and when the input contains no line matching the `@@` hunk-header
pattern, the returned line sequence is empty (unparsable lines are
skipped). -/
theorem c5_no_hunk_header_empty (text : Str)
    (h : ∀ l ∈ splitOnChar '\n' text, hunkHeaderNums l = none) :
    (parseDiff text).lines = [] := by
  have h2 := parseLinesFrom_skip 0 0 (splitOnChar '\n' text) [] h
  rw [List.append_nil] at h2
  unfold parseDiff
  simpa using h2

/-- Witness for C5 at a concrete non-diff input. -/
theorem c5_witness :
    (parseDiff ("a plain sentence\n+not a diff\n-- dashes".data)).lines
      = [] :=
  c5_no_hunk_header_empty _ (by decide)

/-! ## Claim C1 -/

/-- Fixture: one approved change covering line 2 of file `f`, with the
file's cumulative content updated to `a,X,c`. -/
def c1State : ReviewState :=
  { approvedChanges :=
      [{ file := ['f']
         original_content := [['a'], ['b'], ['c']]
         modified_content := [['a'], ['X'], ['c']]
         suggestion := ['r']
         line_start := some 2
         line_end := some 2 }]
    rejectedSuggestions := ∅
    fileContents := [(['f'], [['a'], ['X'], ['c']])] }

/-- Fixture: a suggestion whose diff is stale (its delete line `b` no
longer matches the cumulative content) AND whose highlighted range
overlaps the approved change. -/
def c1Sugg : Suggestion :=
  { sid := 9
    file := ['f']
    comment := ['r']
    highlighted_lines := [2]
    diff := some ⟨2, [.del ['b'], .add ['Y']]⟩ }

/-- Counterexample to C1 as stated: at this approval call the
suggestion's diff does not match the base content (the staleness
condition of the claim holds), yet the apply operation returns
`ConflictError`, not `StaleBaseError`, because the suggestion also
overlaps an already-approved change and the overlap check takes
precedence (required by the spec's own conflict-detection property). -/
theorem c1_counterexample :
    hunkMatches [['a'], ['X'], ['c']] ⟨2, [.del ['b'], .add ['Y']]⟩ = false ∧
      approveResult c1State c1Sugg = .error .conflict ∧
      ApplyError.conflict ≠ ApplyError.staleBase := by
  refine ⟨by decide, by decide, by decide⟩

/-- C1 (amended): when the suggestion's diff does not match the file's
current cumulative content AND the suggestion does not overlap an
already-approved change, the apply operation returns `StaleBaseError` and
the approval leaves the session state (in particular `currentContent`)
unchanged, so the suggestion stays pending. -/
theorem c1_stale_base (st : ReviewState) (s : Suggestion) (h : Hunk)
    (cur : FileText) (hdiff : s.diff = some h)
    (hcur : lookupFC st.fileContents s.file = some cur)
    (hstale : hunkMatches cur h = false)
    (hnoov : overlapsApproved st.approvedChanges s.file s = false) :
    approveResult st s = .error .staleBase ∧ handleApprove st s = st := by
  have hr : approveResult st s = .error .staleBase := by
    unfold approveResult
    rw [hcur]
    simp only
    unfold applySuggestion
    rw [hnoov, hdiff]
    simp [hstale]
  exact ⟨hr, by unfold handleApprove; rw [hr]⟩

/-- Witness for the amended C1: a stale, non-overlapping suggestion on a
fresh session is refused with `StaleBaseError` and changes nothing. -/
theorem c1_witness :
    approveResult ⟨[], ∅, [(['f'], [['a'], ['b']])]⟩
        ⟨0, ['f'], ['r'], [1], some ⟨1, [.del ['z']]⟩⟩ =
      .error .staleBase ∧
    handleApprove ⟨[], ∅, [(['f'], [['a'], ['b']])]⟩
        ⟨0, ['f'], ['r'], [1], some ⟨1, [.del ['z']]⟩⟩ =
      ⟨[], ∅, [(['f'], [['a'], ['b']])]⟩ :=
  c1_stale_base _ _ _ [['a'], ['b']] rfl (by decide) (by decide) (by decide)

/-! ## Claim C2 -/

/-- C2: after a successful approval of `s₁`, approving any suggestion
`s₂` of the same file whose highlighted range intersects `s₁`'s returns
`ConflictError` instead of applying it, and the session state — in
particular the file's `currentContent` — stays exactly the state reached
after only the first approval. -/
theorem c2_conflict (st st₁ : ReviewState) (s₁ s₂ : Suggestion)
    (happ : approveResult st s₁ = .ok st₁)
    (hfile : s₂.file = s₁.file)
    (hint : rangesIntersect (rangeOf s₁) (rangeOf s₂) = true) :
    approveResult st₁ s₂ = .error .conflict ∧ handleApprove st₁ s₂ = st₁ := by
  obtain ⟨cur, m, hl, ha, hst⟩ := approveResult_ok st s₁ st₁ happ
  obtain ⟨a₁, b₁, a₂, b₂, hr₁, hr₂⟩ := rangesIntersect_some _ _ hint
  obtain ⟨hh₁, hg₁⟩ := rangeOf_eq_some s₁ a₁ b₁ hr₁
  rw [hr₁, hr₂] at hint
  have hov : overlapsApproved st₁.approvedChanges s₂.file s₂ = true := by
    rw [hst]
    apply List.any_eq_true.mpr
    refine ⟨mkChange s₁ cur m, by simp, ?_⟩
    simp only [mkChange, hh₁, hg₁, hr₂, hfile]
    simpa using hint
  have hres : approveResult st₁ s₂ = .error .conflict := by
    unfold approveResult
    have hlook : lookupFC st₁.fileContents s₂.file = some m := by
      rw [hst, hfile]
      exact lookupFC_updateFC_self _ _ _
    rw [hlook]
    simp only
    unfold applySuggestion
    rw [hov]
    simp
  exact ⟨hres, by unfold handleApprove; rw [hres]⟩

/-- Fixture for C2: a fresh session on file `f` with content `a,b,c`. -/
def c2Base : ReviewState := ⟨[], ∅, [(['f'], [['a'], ['b'], ['c']])]⟩

/-- Fixture for C2: first suggestion, highlighting line 2. -/
def c2S1 : Suggestion :=
  ⟨0, ['f'], ['r'], [2], some ⟨2, [.del ['b'], .add ['B']]⟩⟩

/-- Fixture for C2: second suggestion, highlighting lines 2–3 (its range
intersects the first's). -/
def c2S2 : Suggestion :=
  ⟨1, ['f'], ['r'], [2, 3], some ⟨2, [.del ['b'], .del ['c']]⟩⟩

/-- Witness for C2: approving the remaining suggestion of a pair with
intersecting highlighted ranges is refused with `ConflictError` and the
content stays at the state after only the first approval. -/
theorem c2_witness :
    approveResult (handleApprove c2Base c2S1) c2S2 = .error .conflict ∧
    handleApprove (handleApprove c2Base c2S1) c2S2 =
      handleApprove c2Base c2S1 :=
  c2_conflict c2Base (handleApprove c2Base c2S1) c2S1 c2S2
    (by decide) (by decide) (by decide)

/-! ## Claim C7 -/

/-- C7: finalize preconditions.  While the session has fewer handled
suggestions than the total (some suggestion is still pending), finalizing
is not ready; when every suggestion is handled but none was approved it
refuses with nothing-to-publish; when every suggestion is handled and
exactly one (well-formed) change was approved it returns exactly that one
change entry. -/
theorem c7_finalize (total : Nat) (st : ReviewState) :
    (handledCount st < total → handleFinalize total st = .notReady) ∧
    (handledCount st = total → 0 < total → st.approvedChanges = [] →
      handleFinalize total st = .nothingToPublish) ∧
    (∀ c, handledCount st = total → 0 < total → st.approvedChanges = [c] →
      c.file ≠ [] → c.modified_content ≠ [] →
      handleFinalize total st = .changes [c]) := by
  refine ⟨?_, ?_, ?_⟩
  · intro hlt
    unfold handleFinalize
    rw [if_neg]
    intro hc
    exact absurd hc.1 (Nat.ne_of_lt hlt)
  · intro heq hpos hnil
    unfold handleFinalize
    rw [if_pos ⟨heq, hpos⟩, hnil]
    simp
  · intro c heq hpos hone hf hm
    unfold handleFinalize
    rw [if_pos ⟨heq, hpos⟩, hone]
    simp [hf, hm]

/-- Fixture for C7: a one-suggestion session on file `f`. -/
def c7Base : ReviewState := ⟨[], ∅, [(['f'], [['a'], ['b'], ['c']])]⟩

/-- Fixture for C7: the session's single suggestion. -/
def c7Sugg : Suggestion :=
  ⟨0, ['f'], ['r'], [2], some ⟨2, [.del ['b'], .add ['B']]⟩⟩

/-- Witness for C7, realizing the spec's scenario: with the suggestion
pending finalize is not ready, after rejecting it finalize has nothing to
publish, and after approving it finalize returns exactly one change. -/
theorem c7_witness :
    handleFinalize 1 c7Base = .notReady ∧
    handleFinalize 1 (handleReject c7Base c7Sugg) = .nothingToPublish ∧
    handleFinalize 1 (handleApprove c7Base c7Sugg) =
      .changes [mkChange c7Sugg [['a'], ['b'], ['c']] [['a'], ['B'], ['c']]] :=
  ⟨(c7_finalize 1 c7Base).1 (by decide),
   (c7_finalize 1 (handleReject c7Base c7Sugg)).2.1 (by decide) (by decide)
     (by decide),
   (c7_finalize 1 (handleApprove c7Base c7Sugg)).2.2 _ (by decide) (by decide)
     (by decide) (by decide) (by decide)⟩

/-! ## Claim C8 -/

/-- Counterexample to C8 as stated: in the `FullscreenReview` variant
(RepoList.jsx lines 874–879) the reported progress is
`approved / total`, not `(approved + rejected) / total`: after rejecting
one of two issues it still reports 0, where the claim demands 50. -/
theorem c8_counterexample :
    fullscreenProgress 2 (handleRejectIssue ⟨[], ∅⟩ (['f'], 0)) = 0 ∧
    (((handleRejectIssue ⟨[], ∅⟩ (['f'], 0)).approvedChanges.length +
        (handleRejectIssue ⟨[], ∅⟩ (['f'], 0)).rejectedIssues.card : ℚ) / 2)
      * 100 = 50 ∧
    (0 : ℚ) ≠ 50 := by
  have hc : (handleRejectIssue (⟨[], ∅⟩ : FsState) (['f'], 0)).rejectedIssues.card = 1 := by
    decide
  have ha : (handleRejectIssue (⟨[], ∅⟩ : FsState) (['f'], 0)).approvedChanges = [] := rfl
  refine ⟨?_, ?_, by norm_num⟩
  · unfold fullscreenProgress
    rw [ha]
    norm_num
  · rw [ha, hc]
    norm_num

/-- C8 (amended): in the main `InteractiveReview` component the reported
progress equals `(approved + rejected) / total` (as a percentage) whenever
the total is non-zero; the `FullscreenReview` variant instead reports
`approved / total`. -/
theorem c8_progress (total : Nat) (st : ReviewState) (h : total ≠ 0) :
    progress total st =
      ((st.approvedChanges.length + st.rejectedSuggestions.card : ℚ) / total)
        * 100 := by
  unfold progress handledCount
  rw [if_neg h]
  push_cast
  ring

/-- Witness for the amended C8 at a concrete session state. -/
theorem c8_witness :
    progress 2 (handleReject ⟨[], ∅, []⟩ ⟨0, ['f'], ['r'], [1], none⟩) =
      (((handleReject ⟨[], ∅, []⟩
          ⟨0, ['f'], ['r'], [1], none⟩).approvedChanges.length +
        (handleReject ⟨[], ∅, []⟩
          ⟨0, ['f'], ['r'], [1], none⟩).rejectedSuggestions.card : ℚ) / 2)
        * 100 :=
  c8_progress 2 _ (by decide)

/-! ## Claim C9 -/

/-- Fixture for C9: a suggestion object. -/
def c9S1 : Suggestion := ⟨0, ['f'], ['r'], [2], none⟩

/-- Fixture for C9: a structurally equal copy of `c9S1` — same file, same
starting line, same every source field — produced by a different render
(different object identity `sid`). -/
def c9S2 : Suggestion := ⟨1, ['f'], ['r'], [2], none⟩

/-- Fixture for C9: a fresh one-file session. -/
def c9State : ReviewState := ⟨[], ∅, [(['f'], [['a'], ['b'], ['c']])]⟩

/-- C9 evaluated at the failing input: `c9S2` agrees with `c9S1` on every
source field (they share the identity key of the claim), yet after
rejecting `c9S1` the copy is still listed as active — rejection tracking
uses JavaScript `Set` membership by object reference, not the structural
key, contradicting the claim (which matches the spec's stated intent). -/
theorem c9_reject_by_reference :
    (c9S1.file = c9S2.file ∧ c9S1.comment = c9S2.comment ∧
      c9S1.highlighted_lines = c9S2.highlighted_lines ∧
      c9S1.diff = c9S2.diff) ∧
    activeSuggestions (handleReject c9State c9S1) ['f'] [c9S1, c9S2] =
      [c9S2] := by
  refine ⟨by decide, by decide⟩

/-! ## Claim C10 -/

theorem isApprovedSugg_iff (st : ReviewState) (f : Str) (s : Suggestion) :
    isApprovedSugg st f s = true ↔
      ∃ c ∈ st.approvedChanges,
        c.file = f ∧ c.line_start = s.highlighted_lines.head? := by
  unfold isApprovedSugg
  rw [List.any_eq_true]
  simp

theorem isApprovedSugg_mono (st st' : ReviewState) (f : Str)
    (s : Suggestion) (hext : ∃ t, st'.approvedChanges = st.approvedChanges ++ t)
    (h : isApprovedSugg st f s = true) : isApprovedSugg st' f s = true := by
  obtain ⟨t, ht⟩ := hext
  unfold isApprovedSugg at h ⊢
  rw [ht, List.any_append, h, Bool.true_or]

theorem handleApprove_extends (st : ReviewState) (s : Suggestion) :
    ∃ u, (handleApprove st s).approvedChanges = st.approvedChanges ++ u := by
  unfold handleApprove
  cases hres : approveResult st s with
  | error e => exact ⟨[], by simp⟩
  | ok st' =>
    obtain ⟨cur, m, _, _, hst⟩ := approveResult_ok st s st' hres
    exact ⟨[mkChange s cur m], by rw [hst]⟩

theorem runOps_extends (ops : List Op) (st : ReviewState) :
    ∃ t, (runOps st ops).approvedChanges = st.approvedChanges ++ t := by
  induction ops generalizing st with
  | nil => exact ⟨[], by simp [runOps]⟩
  | cons op ops ih =>
    cases op with
    | approveOp s =>
      obtain ⟨t, ht⟩ := ih (handleApprove st s)
      obtain ⟨u, hu⟩ := handleApprove_extends st s
      refine ⟨u ++ t, ?_⟩
      show (runOps (handleApprove st s) ops).approvedChanges = _
      rw [ht, hu, List.append_assoc]
    | rejectOp s =>
      obtain ⟨t, ht⟩ := ih (handleReject st s)
      refine ⟨t, ?_⟩
      show (runOps (handleReject st s) ops).approvedChanges = _
      rw [ht]
      rfl

theorem notin_active_of_approved (st : ReviewState) (f : Str)
    (s : Suggestion) (suggs : List Suggestion)
    (h : isApprovedSugg st f s = true) :
    s ∉ activeSuggestions st f suggs := by
  intro hmem
  unfold activeSuggestions at hmem
  have hp := (List.mem_filter.mp hmem).2
  rw [h] at hp
  simp at hp

/-- C10: an approved change with the same file and the same first
highlighted line marks a suggestion as approved (that is the full
characterization of the `isApproved` test); consequently, after a
successful approval of `s₁`, both `s₁` and any other suggestion `s₂`
whose `highlightedLines` start at the same line disappear from the active
suggestion list of that file, and they stay excluded after any further
sequence of approve/reject actions, so the other suggestion can never be
approved or rejected through the UI. -/
theorem c10_shared_start_line (st st' : ReviewState) (f : Str)
    (s₁ s₂ : Suggestion) (suggs : List Suggestion)
    (happ : approveResult st s₁ = .ok st')
    (hfile : s₁.file = f)
    (hsame : s₂.highlighted_lines.head? = s₁.highlighted_lines.head?) :
    (∀ stx fx sx, isApprovedSugg stx fx sx = true ↔
        ∃ c ∈ stx.approvedChanges,
          c.file = fx ∧ c.line_start = sx.highlighted_lines.head?) ∧
    s₁ ∉ activeSuggestions st' f suggs ∧
    s₂ ∉ activeSuggestions st' f suggs ∧
    (∀ ops, s₁ ∉ activeSuggestions (runOps st' ops) f suggs ∧
        s₂ ∉ activeSuggestions (runOps st' ops) f suggs) := by
  obtain ⟨cur, m, hl, ha, hst⟩ := approveResult_ok st s₁ st' happ
  have hap1 : isApprovedSugg st' f s₁ = true := by
    rw [isApprovedSugg_iff]
    refine ⟨mkChange s₁ cur m, by rw [hst]; simp, ?_⟩
    exact ⟨hfile, rfl⟩
  have hap2 : isApprovedSugg st' f s₂ = true := by
    rw [isApprovedSugg_iff]
    refine ⟨mkChange s₁ cur m, by rw [hst]; simp, ?_⟩
    exact ⟨hfile, by rw [hsame]; rfl⟩
  refine ⟨isApprovedSugg_iff, notin_active_of_approved _ _ _ _ hap1,
    notin_active_of_approved _ _ _ _ hap2, fun ops => ?_⟩
  have hext := runOps_extends ops st'
  exact ⟨notin_active_of_approved _ _ _ _
      (isApprovedSugg_mono _ _ _ _ hext hap1),
    notin_active_of_approved _ _ _ _
      (isApprovedSugg_mono _ _ _ _ hext hap2)⟩

/-- Fixture for C10: the session. -/
def c10Base : ReviewState := ⟨[], ∅, [(['f'], [['a'], ['b'], ['c']])]⟩

/-- Fixture for C10: the approved suggestion, starting at line 2. -/
def c10S1 : Suggestion :=
  ⟨0, ['f'], ['r'], [2], some ⟨2, [.del ['b'], .add ['B']]⟩⟩

/-- Fixture for C10: a distinct suggestion whose highlighted lines start
at the same line 2. -/
def c10S2 : Suggestion := ⟨1, ['f'], ['q'], [2, 3], none⟩

/-- Witness for C10: approving the first suggestion removes both from the
active list, now and after a further rejection attempt on the second. -/
theorem c10_witness :
    c10S1 ∉ activeSuggestions (handleApprove c10Base c10S1) ['f']
        [c10S1, c10S2] ∧
    c10S2 ∉ activeSuggestions (handleApprove c10Base c10S1) ['f']
        [c10S1, c10S2] ∧
    c10S2 ∉ activeSuggestions
        (runOps (handleApprove c10Base c10S1) [.rejectOp c10S2]) ['f']
        [c10S1, c10S2] := by
  have h := c10_shared_start_line c10Base (handleApprove c10Base c10S1)
    ['f'] c10S1 c10S2 [c10S1, c10S2] (by decide) (by decide) (by decide)
  exact ⟨h.2.1, h.2.2.1, (h.2.2.2 [.rejectOp c10S2]).2⟩

/-! ## Claim C6 -/

/-- Strict increase of the numbers a side displays along a trace. -/
def sideMono (f : RenderedLine → Option Nat) (tr : List RenderedLine) : Prop :=
  ∀ i j ri rj a b, i < j → tr.get? i = some ri → f ri = some a →
    tr.get? j = some rj → f rj = some b → a < b

theorem rstep_old_emit (st : RState) (l : Str) (a : Nat)
    (h : (rstep st l).1.oldNum = some a) :
    a = st.oldLineNum ∧ (rstep st l).2.oldLineNum = st.oldLineNum + 1 := by
  unfold rstep at h ⊢
  split_ifs at h ⊢ <;> simp_all

theorem rstep_new_emit (st : RState) (l : Str) (a : Nat)
    (h : (rstep st l).1.newNum = some a) :
    a = st.newLineNum ∧ (rstep st l).2.newLineNum = st.newLineNum + 1 := by
  unfold rstep at h ⊢
  split_ifs at h ⊢ <;> simp_all

theorem rstep_parsed (st : RState) (l : Str)
    (h : st.headerParsed = true) : (rstep st l).2.headerParsed = true := by
  unfold rstep
  split_ifs <;> simp_all

theorem rstep_old_mono (st : RState) (l : Str)
    (h : st.headerParsed = true) :
    st.oldLineNum ≤ (rstep st l).2.oldLineNum := by
  unfold rstep
  split_ifs <;> simp_all

theorem rstep_new_mono (st : RState) (l : Str)
    (h : st.headerParsed = true) :
    st.newLineNum ≤ (rstep st l).2.newLineNum := by
  unfold rstep
  split_ifs <;> simp_all

theorem trace_oldNum_ge (ls : List Str) : ∀ st : RState,
    st.headerParsed = true → ∀ r ∈ renderTraceFrom st ls, ∀ a,
      r.oldNum = some a → st.oldLineNum ≤ a := by
  induction ls with
  | nil => intro st _ r hr; simp [renderTraceFrom] at hr
  | cons l ls ih =>
    intro st hp r hr a ha
    rw [renderTraceFrom] at hr
    rcases List.mem_cons.mp hr with h1 | h2
    · subst h1
      exact le_of_eq (rstep_old_emit st l a ha).1.symm
    · exact le_trans (rstep_old_mono st l hp)
        (ih (rstep st l).2 (rstep_parsed st l hp) r h2 a ha)

theorem trace_newNum_ge (ls : List Str) : ∀ st : RState,
    st.headerParsed = true → ∀ r ∈ renderTraceFrom st ls, ∀ a,
      r.newNum = some a → st.newLineNum ≤ a := by
  induction ls with
  | nil => intro st _ r hr; simp [renderTraceFrom] at hr
  | cons l ls ih =>
    intro st hp r hr a ha
    rw [renderTraceFrom] at hr
    rcases List.mem_cons.mp hr with h1 | h2
    · subst h1
      exact le_of_eq (rstep_new_emit st l a ha).1.symm
    · exact le_trans (rstep_new_mono st l hp)
        (ih (rstep st l).2 (rstep_parsed st l hp) r h2 a ha)

theorem trace_old_strict (ls : List Str) : ∀ st : RState,
    st.headerParsed = true →
    sideMono (fun r => r.oldNum) (renderTraceFrom st ls) := by
  induction ls with
  | nil => intro st _ i j ri rj a b _ hi; simp [renderTraceFrom] at hi
  | cons l ls ih =>
    intro st hp i j ri rj a b hij hi hfi hj hfj
    rw [renderTraceFrom] at hi hj
    cases i with
    | zero =>
      simp only [List.get?_cons_zero, Option.some.injEq] at hi
      subst hi
      obtain ⟨ha1, ha2⟩ := rstep_old_emit st l a hfi
      cases j with
      | zero => omega
      | succ j' =>
        simp only [List.get?_cons_succ] at hj
        have hb2 := trace_oldNum_ge ls (rstep st l).2 (rstep_parsed st l hp)
          rj (List.get?_mem hj) b hfj
        omega
    | succ i' =>
      cases j with
      | zero => omega
      | succ j' =>
        simp only [List.get?_cons_succ] at hi hj
        exact ih (rstep st l).2 (rstep_parsed st l hp) i' j' ri rj a b
          (by omega) hi hfi hj hfj

theorem trace_new_strict (ls : List Str) : ∀ st : RState,
    st.headerParsed = true →
    sideMono (fun r => r.newNum) (renderTraceFrom st ls) := by
  induction ls with
  | nil => intro st _ i j ri rj a b _ hi; simp [renderTraceFrom] at hi
  | cons l ls ih =>
    intro st hp i j ri rj a b hij hi hfi hj hfj
    rw [renderTraceFrom] at hi hj
    cases i with
    | zero =>
      simp only [List.get?_cons_zero, Option.some.injEq] at hi
      subst hi
      obtain ⟨ha1, ha2⟩ := rstep_new_emit st l a hfi
      cases j with
      | zero => omega
      | succ j' =>
        simp only [List.get?_cons_succ] at hj
        have hb := trace_newNum_ge ls (rstep st l).2 (rstep_parsed st l hp)
          rj (List.get?_mem hj) b hfj
        omega
    | succ i' =>
      cases j with
      | zero => omega
      | succ j' =>
        simp only [List.get?_cons_succ] at hi hj
        exact ih (rstep st l).2 (rstep_parsed st l hp) i' j' ri rj a b
          (by omega) hi hfi hj hfj

theorem trace_shape (ls : List Str) : ∀ st : RState,
    ∀ r ∈ renderTraceFrom st ls,
      (r.kind = .added → r.oldNum = none ∧ r.newNum.isSome) ∧
      (r.kind = .removed → r.oldNum.isSome ∧ r.newNum = none) ∧
      (r.kind = .ctxLine → r.oldNum.isSome ∧ r.newNum.isSome) ∧
      (r.kind = .hunkMarker → r.oldNum = none ∧ r.newNum = none) := by
  induction ls with
  | nil => intro st r hr; simp [renderTraceFrom] at hr
  | cons l ls ih =>
    intro st r hr
    rw [renderTraceFrom] at hr
    rcases List.mem_cons.mp hr with h1 | h2
    · subst h1
      unfold rstep
      split_ifs <;> simp
    · exact ih (rstep st l).2 r h2

/-- The first `@@` line of a diff, when no earlier line parses a header,
initializes the counters to the parsed starting numbers. -/
theorem rstep_first_header (hdr : Str) (o n : Nat)
    (h1 : strStartsWith ['@', '@'] hdr = true)
    (h2 : parseDiffHeader hdr = (o, n)) :
    rstep ⟨0, 0, false⟩ hdr = (⟨.hunkMarker, none, none⟩, ⟨o, n, true⟩) := by
  obtain ⟨t, rfl⟩ : ∃ t, hdr = '@' :: '@' :: t := by
    cases hdr with
    | nil => simp [strStartsWith] at h1
    | cons c cs =>
      cases cs with
      | nil => simp [strStartsWith] at h1
      | cons c2 cs2 =>
        simp only [strStartsWith, Bool.and_eq_true, decide_eq_true_eq] at h1
        obtain ⟨hc, hc2, -⟩ := h1
        exact ⟨cs2, by rw [← hc, ← hc2]⟩
  unfold rstep
  rw [if_neg (by simp [strStartsWith]), if_pos (by simp [strStartsWith])]
  simp [h2]

/-- C6 (amended): only the FIRST hunk header of the rendered diff
initializes the counters, to its parsed `O` and `N`; from that point on,
add lines carry only a new number, delete lines only an old number,
context lines both (each advancing its counters), later `@@` markers
carry no numbers and do NOT re-initialize, and the numbers displayed on
each side are strictly increasing across the whole remainder — in
particular within each hunk. -/
theorem c6_numbering (hdr : Str) (body : List Str) (o n : Nat)
    (h1 : strStartsWith ['@', '@'] hdr = true)
    (h2 : parseDiffHeader hdr = (o, n)) :
    renderTraceFrom ⟨0, 0, false⟩ (hdr :: body) =
      ⟨.hunkMarker, none, none⟩ :: renderTraceFrom ⟨o, n, true⟩ body ∧
    (∀ r ∈ renderTraceFrom ⟨o, n, true⟩ body,
      (r.kind = .added → r.oldNum = none ∧ r.newNum.isSome) ∧
      (r.kind = .removed → r.oldNum.isSome ∧ r.newNum = none) ∧
      (r.kind = .ctxLine → r.oldNum.isSome ∧ r.newNum.isSome) ∧
      (r.kind = .hunkMarker → r.oldNum = none ∧ r.newNum = none)) ∧
    sideMono (fun r => r.oldNum) (renderTraceFrom ⟨o, n, true⟩ body) ∧
    sideMono (fun r => r.newNum) (renderTraceFrom ⟨o, n, true⟩ body) := by
  have hstep := rstep_first_header hdr o n h1 h2
  refine ⟨?_, trace_shape body _, trace_old_strict body _ rfl,
    trace_new_strict body _ rfl⟩
  rw [renderTraceFrom, hstep]

/-- Fixture for C6: a two-hunk diff whose second header's numbers differ
from the running counters. -/
def c6Ex : Str := "@@ -1,1 +1,1 @@\n a\n@@ -10,2 +20,2 @@\n b".data

/-- Counterexample to C6 as stated: after the second hunk header
`@@ -10,2 +20,2 @@` the next context line displays old/new numbers
`(2, 2)` — the counters kept running from the first hunk — not the
`(10, 20)` that re-initialization at every hunk header would give
(`renderDiffWithContext` parses only the first header). -/
theorem c6_counterexample :
    (renderDiffWithContext c6Ex).get? 3 =
      some ⟨.ctxLine, some 2, some 2⟩ ∧
    ¬ (renderDiffWithContext c6Ex).get? 3 =
      some ⟨.ctxLine, some 10, some 20⟩ := by
  refine ⟨by decide, by decide⟩

/-- Witness for the amended C6 at a concrete one-hunk diff. -/
theorem c6_witness :
    renderTraceFrom ⟨0, 0, false⟩
        ["@@ -5,2 +7,2 @@".data, " x".data, "-y".data, "+z".data] =
      ⟨.hunkMarker, none, none⟩ ::
        renderTraceFrom ⟨5, 7, true⟩ [" x".data, "-y".data, "+z".data] :=
  (c6_numbering "@@ -5,2 +7,2 @@".data [" x".data, "-y".data, "+z".data]
    5 7 (by decide) (by decide)).1

/-! ## Claim C4 -/

/-- Re-parsing the serialized form of an emitted diff line, from the same
parser state, emits the same line and reaches the same state. -/
theorem classify_render (s : PState) (l : Str) (d : DiffLine) (s' : PState)
    (h : classifyLine s l = some (d, s')) :
    classifyLine s (renderLine d) = some (d, s') := by
  unfold classifyLine at h
  cases hh : hunkHeaderNums l with
  | some pn =>
    obtain ⟨o, n⟩ := pn
    rw [hh] at h
    simp only [] at h
    simp only [Option.some.injEq, Prod.mk.injEq] at h
    obtain ⟨hd, hs2⟩ := h
    subst hd
    subst hs2
    show classifyLine s l = _
    unfold classifyLine
    rw [hh]
  | none =>
    rw [hh] at h
    simp only [] at h
    by_cases hs : s.afterHeader = true
    · rw [if_pos hs] at h
      cases l with
      | nil =>
        simp only [] at h
        simp only [Option.some.injEq, Prod.mk.injEq] at h
        obtain ⟨hd, hs2⟩ := h
        subst hd
        subst hs2
        show classifyLine s [' '] = _
        unfold classifyLine
        rw [show hunkHeaderNums [' '] = none from by decide]
        simp [hs]
      | cons c rest =>
        simp only [] at h
        by_cases hc1 : c = '-'
        · subst hc1
          rw [if_pos rfl] at h
          simp only [Option.some.injEq, Prod.mk.injEq] at h
          obtain ⟨hd, hs2⟩ := h
          subst hd
          subst hs2
          show classifyLine s ('-' :: rest) = _
          unfold classifyLine
          rw [hh]
          simp [hs]
        · rw [if_neg hc1] at h
          by_cases hc2 : c = '+'
          · subst hc2
            rw [if_pos rfl] at h
            simp only [Option.some.injEq, Prod.mk.injEq] at h
            obtain ⟨hd, hs2⟩ := h
            subst hd
            subst hs2
            show classifyLine s ('+' :: rest) = _
            unfold classifyLine
            rw [hh]
            simp [hs]
          · rw [if_neg hc2] at h
            by_cases hc3 : c = ' '
            · subst hc3
              rw [if_pos rfl] at h
              simp only [Option.some.injEq, Prod.mk.injEq] at h
              obtain ⟨hd, hs2⟩ := h
              subst hd
              subst hs2
              show classifyLine s (' ' :: rest) = _
              unfold classifyLine
              rw [hh]
              simp [hs]
            · rw [if_neg hc3] at h
              simp at h
    · rw [if_neg hs] at h
      simp at h

/-- Serializing an emitted line sequence and re-parsing it from the same
starting state reproduces it exactly. -/
theorem parse_render_from (ls : List Str) : ∀ s : PState,
    parseLinesFrom s ((parseLinesFrom s ls).map renderLine) =
      parseLinesFrom s ls := by
  induction ls with
  | nil => intro s; rfl
  | cons l ls ih =>
    intro s
    cases hc : classifyLine s l with
    | none =>
      show parseLinesFrom s ((parseLinesFrom s (l :: ls)).map renderLine) = _
      rw [parseLinesFrom, hc]
      simp only []
      exact (ih s).trans rfl
    | some ds =>
      obtain ⟨d, s'⟩ := ds
      have hr := classify_render s l d s' hc
      show parseLinesFrom s ((parseLinesFrom s (l :: ls)).map renderLine) = _
      rw [parseLinesFrom, hc]
      simp only [List.map_cons]
      rw [parseLinesFrom, hr]
      simp only []
      rw [ih s']

/-- Pieces produced by `splitOnChar` never contain the separator. -/
theorem splitOnChar_sep_notMem (c : Char) (s : Str) :
    ∀ p ∈ splitOnChar c s, c ∉ p := by
  induction s with
  | nil =>
    intro p hp
    simp [splitOnChar] at hp
    simp [hp]
  | cons x xs ih =>
    intro p hp
    by_cases hx : x = c
    · rw [splitOnChar, if_pos hx] at hp
      rcases List.mem_cons.mp hp with h1 | h2
      · simp [h1]
      · exact ih p h2
    · rw [splitOnChar, if_neg hx] at hp
      cases hsp : splitOnChar c xs with
      | nil =>
        rw [hsp] at hp
        simp at hp
        simp [hp]
        exact fun he => hx he.symm
      | cons y ys =>
        rw [hsp] at hp
        rcases List.mem_cons.mp hp with h1 | h2
        · subst h1
          intro hmem
          rcases List.mem_cons.mp hmem with h3 | h4
          · exact hx h3.symm
          · exact ih y (hsp ▸ List.mem_cons_self y ys) h4
        · exact ih p (hsp ▸ List.mem_cons_of_mem y h2)

/-- Splitting a separator-free string is the identity. -/
theorem splitOnChar_notMem (c : Char) (l : Str) (h : c ∉ l) :
    splitOnChar c l = [l] := by
  induction l with
  | nil => rfl
  | cons x xs ih =>
    have hx : ¬ x = c := fun he => h (he ▸ List.mem_cons_self x xs)
    rw [splitOnChar, if_neg hx, ih (fun hm => h (List.mem_cons_of_mem x hm))]

/-- Splitting after a separator-free chunk peels it off. -/
theorem splitOnChar_append (c : Char) (l t : Str) (h : c ∉ l) :
    splitOnChar c (l ++ c :: t) = l :: splitOnChar c t := by
  induction l with
  | nil => simp [splitOnChar]
  | cons x xs ih =>
    have hx : ¬ x = c := fun he => h (he ▸ List.mem_cons_self x xs)
    rw [List.cons_append, splitOnChar, if_neg hx,
      ih (fun hm => h (List.mem_cons_of_mem x hm))]

/-- `splitOnChar` is a left inverse of `joinLines` on non-empty lists of
separator-free lines. -/
theorem splitOnChar_joinLines (X : List Str) (hne : X ≠ [])
    (h : ∀ x ∈ X, ('\n' : Char) ∉ x) :
    splitOnChar '\n' (joinLines X) = X := by
  induction X with
  | nil => exact absurd rfl hne
  | cons l rest ih =>
    cases rest with
    | nil =>
      show splitOnChar '\n' (joinLines [l]) = [l]
      rw [joinLines]
      exact splitOnChar_notMem '\n' l (h l (List.mem_cons_self l []))
    | cons l2 rest2 =>
      show splitOnChar '\n' (l ++ '\n' :: joinLines (l2 :: rest2)) = _
      rw [splitOnChar_append '\n' l _ (h l (List.mem_cons_self _ _)),
        ih (by simp) (fun x hx => h x (List.mem_cons_of_mem l hx))]

/-- A line that does not begin with `@` is no hunk header. -/
theorem hunkHeaderNums_cons_ne (c : Char) (hc : c ≠ '@') (r : Str) :
    hunkHeaderNums (c :: r) = none := by
  unfold hunkHeaderNums matchHunkAt
  rw [show expectChar '@' (c :: r) = none from by
    unfold expectChar; simp only []; rw [if_neg hc]]
  rfl

/-- Emitted contents come from the emitting raw line: characters absent
from the raw line are absent from the content. -/
theorem classify_content (s : PState) (l : Str) (d : DiffLine) (s' : PState)
    (h : classifyLine s l = some (d, s')) (c : Char) (hc : c ∉ l) :
    c ∉ d.content := by
  unfold classifyLine at h
  split at h
  · simp only [Option.some.injEq, Prod.mk.injEq] at h
    rw [← h.1]
    exact hc
  · split at h
    · split at h
      · split_ifs at h <;>
          (simp only [Option.some.injEq, Prod.mk.injEq] at h
           rw [← h.1]
           exact fun hm => hc (List.mem_cons_of_mem _ hm))
      · simp only [Option.some.injEq, Prod.mk.injEq] at h
        rw [← h.1]
        simp
    · simp at h

/-- Serialization introduces no newline beyond the one-character prefix. -/
theorem renderLine_notMem (d : DiffLine) (c : Char) (h1 : c ∉ d.content)
    (h2 : c ≠ '-') (h3 : c ≠ '+') (h4 : c ≠ ' ') : c ∉ renderLine d := by
  unfold renderLine
  split
  · exact h1
  · simp [List.mem_cons, h1, h2]
  · simp [List.mem_cons, h1, h3]
  · simp [List.mem_cons, h1, h4]

/-- All contents of a parse of newline-free raw lines are newline-free. -/
theorem parseLinesFrom_content (ls : List Str) : ∀ s : PState,
    (∀ l ∈ ls, ('\n' : Char) ∉ l) →
    ∀ d ∈ parseLinesFrom s ls, ('\n' : Char) ∉ d.content := by
  induction ls with
  | nil => intro s _ d hd; simp [parseLinesFrom] at hd
  | cons l ls ih =>
    intro s hfree d hd
    rw [parseLinesFrom] at hd
    cases hc : classifyLine s l with
    | none =>
      rw [hc] at hd
      exact ih s (fun x hx => hfree x (List.mem_cons_of_mem l hx)) d hd
    | some ds =>
      obtain ⟨d0, s'⟩ := ds
      rw [hc] at hd
      simp only [] at hd
      rcases List.mem_cons.mp hd with h1 | h2
      · subst h1
        exact classify_content s l d s' hc '\n'
          (hfree l (List.mem_cons_self l ls))
      · exact ih s' (fun x hx => hfree x (List.mem_cons_of_mem l hx)) d h2

/-- Dropping characters cannot introduce a character. -/
theorem stripOnePathPrefix_sub (s : Str) (c : Char) (h : c ∉ s) :
    c ∉ stripOnePathPrefix s := by
  unfold stripOnePathPrefix
  split_ifs
  · intro hm
    exact h ((List.dropWhile_sublist _).mem (List.mem_of_mem_drop hm))
  · exact h

/-- Extracted file names contain no character absent from the input. -/
theorem extractFileNames_free (c : Char) (ls : List Str)
    (h : ∀ l ∈ ls, c ∉ l) :
    c ∉ (extractFileNames ls).1 ∧ c ∉ (extractFileNames ls).2 := by
  induction ls with
  | nil => simp [extractFileNames]
  | cons l ls ih =>
    have hl := h l (List.mem_cons_self l ls)
    have hrest := ih fun x hx => h x (List.mem_cons_of_mem l hx)
    unfold extractFileNames
    split_ifs
    · simp
    · exact ⟨stripOnePathPrefix_sub _ c
        (fun hm => hl (List.mem_of_mem_drop hm)), hrest.2⟩
    · exact ⟨hrest.1, stripOnePathPrefix_sub _ c
        (fun hm => hl (List.mem_of_mem_drop hm))⟩
    · exact hrest

/-- The reconstructor's header lines contain no newline and are no hunk
headers. -/
theorem reconstructHeaders_facts (oldName newName : Str)
    (hofree : ('\n' : Char) ∉ oldName) (hnfree : ('\n' : Char) ∉ newName) :
    (∀ x ∈ reconstructHeaders oldName newName, ('\n' : Char) ∉ x) ∧
    (∀ x ∈ reconstructHeaders oldName newName, hunkHeaderNums x = none) := by
  constructor
  · intro x hx
    unfold reconstructHeaders at hx
    rcases List.mem_append.mp hx with h1 | h2
    · split_ifs at h1 with h
      · simp only [List.mem_singleton] at h1
        subst h1
        intro hm
        rcases List.mem_append.mp hm with hm1 | hm2
        · exact absurd hm1 (by decide)
        · exact hofree hm2
      · simp at h1
    · split_ifs at h2 with h
      · simp only [List.mem_singleton] at h2
        subst h2
        intro hm
        rcases List.mem_append.mp hm with hm1 | hm2
        · exact absurd hm1 (by decide)
        · exact hnfree hm2
      · simp at h2
  · intro x hx
    unfold reconstructHeaders at hx
    rcases List.mem_append.mp hx with h1 | h2
    · split_ifs at h1 with h
      · simp only [List.mem_singleton] at h1
        subst h1
        exact hunkHeaderNums_cons_ne '-' (by decide) _
      · simp at h1
    · split_ifs at h2 with h
      · simp only [List.mem_singleton] at h2
        subst h2
        exact hunkHeaderNums_cons_ne '+' (by decide) _
      · simp at h2

/-- Parsing the reconstruction of a parsed line sequence (with
newline-free names and contents) recovers it whenever re-parsing the bare
serialized lines does. -/
theorem parse_reconstruct (oldName newName : Str) (out : List DiffLine)
    (hofree : ('\n' : Char) ∉ oldName) (hnfree : ('\n' : Char) ∉ newName)
    (hcfree : ∀ d ∈ out, ('\n' : Char) ∉ d.content)
    (hsound : parseLinesFrom ⟨false, 0, 0⟩ (out.map renderLine) = out) :
    (parseDiff (reconstruct oldName newName out)).lines = out := by
  obtain ⟨hhfree, hhnone⟩ := reconstructHeaders_facts oldName newName
    hofree hnfree
  by_cases hX : reconstructHeaders oldName newName ++ out.map renderLine = []
  · obtain ⟨hh, hm⟩ := List.append_eq_nil.mp hX
    have hout : out = [] := List.map_eq_nil_iff.mp hm
    subst hout
    unfold reconstruct
    rw [hX]
    decide
  · unfold reconstruct
    have hallfree : ∀ x ∈ reconstructHeaders oldName newName ++
        out.map renderLine, ('\n' : Char) ∉ x := by
      intro x hx
      rcases List.mem_append.mp hx with h1 | h2
      · exact hhfree x h1
      · obtain ⟨d, hd, hdx⟩ := List.mem_map.mp h2
        rw [← hdx]
        exact renderLine_notMem d '\n' (hcfree d hd) (by decide) (by decide)
          (by decide)
    show (parseDiff (joinLines _)).lines = out
    unfold parseDiff
    simp only []
    rw [splitOnChar_joinLines _ hX hallfree,
      parseLinesFrom_skip 0 0 _ _ hhnone, hsound]

/-- C4: the round-trip law.  For EVERY input text (in particular every
syntactically valid unified diff), serializing the parsed line sequence
with the reconstructor — using the parse's own file names — and parsing
the result again yields a line sequence equal to the original parse:
same kinds, same contents, and same old/new line numbers. -/
theorem c4_roundtrip (text : Str) :
    (parseDiff (reconstruct (parseDiff text).oldFileName
        (parseDiff text).newFileName (parseDiff text).lines)).lines =
      (parseDiff text).lines := by
  have hfree := splitOnChar_sep_notMem '\n' text
  have hnames := extractFileNames_free '\n' (splitOnChar '\n' text) hfree
  have hcont := parseLinesFrom_content (splitOnChar '\n' text)
    ⟨false, 0, 0⟩ hfree
  have hsound := parse_render_from (splitOnChar '\n' text) ⟨false, 0, 0⟩
  exact parse_reconstruct _ _ _ hnames.1 hnames.2 hcont hsound

/-! ## Claim C3 -/

theorem hunkMatches_iff (base : FileText) (h : Hunk) :
    hunkMatches base h = true ↔
      (base.drop (h.oldStart - 1)).take (oldCount h) = oldLines h := by
  simp [hunkMatches]

/-- Applying a two-hunk combined patch (ascending, non-overlapping,
both matching the base) splices both regions simultaneously. -/
theorem applyPatch_two (base : FileText) (h₁ h₂ : Hunk)
    (hm₁ : hunkMatches base h₁ = true)
    (hm₂ : hunkMatches base h₂ = true)
    (hord : h₁.oldStart - 1 + oldCount h₁ ≤ h₂.oldStart - 1) :
    applyPatch base [h₁, h₂] =
      some (sliceOf base 0 (h₁.oldStart - 1) ++ (newLines h₁ ++
        (sliceOf base (h₁.oldStart - 1 + oldCount h₁) (h₂.oldStart - 1) ++
          (newLines h₂ ++
            base.drop (h₂.oldStart - 1 + oldCount h₂))))) := by
  unfold applyPatch
  simp only [patchSpliceAux]
  rw [if_pos ⟨Nat.zero_le _, hm₁⟩, if_pos ⟨hord, hm₂⟩]
  simp

/-- Core list identities for splicing below an untouched region: reading
or replacing lines strictly below position `pA` is unaffected by a splice
at `pA`. -/
theorem seq_core (base newA : FileText) (pA kA pB n : Nat)
    (hord : pB + n ≤ pA) (hlen : pA + kA ≤ base.length) :
    ((base.take pA ++ newA ++ base.drop (pA + kA)).drop pB).take n =
        (base.drop pB).take n ∧
    (base.take pA ++ newA ++ base.drop (pA + kA)).take pB = base.take pB ∧
    (base.take pA ++ newA ++ base.drop (pA + kA)).drop (pB + n) =
      (base.drop (pB + n)).take (pA - (pB + n)) ++
        (newA ++ base.drop (pA + kA)) := by
  have hpAlen : pA ≤ base.length := le_trans (Nat.le_add_right _ _) hlen
  have htakelen : (base.take pA).length = pA := List.length_take_of_le hpAlen
  have hpBpA : pB ≤ pA := by omega
  have hnle : n ≤ pA - pB := by omega
  refine ⟨?_, ?_, ?_⟩
  · rw [List.append_assoc, List.drop_append_eq_append_drop, htakelen,
      Nat.sub_eq_zero_of_le hpBpA, List.drop_zero,
      List.take_append_eq_append_take, List.length_drop, htakelen,
      Nat.sub_eq_zero_of_le hnle, List.take_zero, List.append_nil,
      List.drop_take, List.take_take, Nat.min_eq_left hnle]
  · rw [List.append_assoc, List.take_append_eq_append_take, htakelen,
      Nat.sub_eq_zero_of_le hpBpA, List.take_zero, List.append_nil,
      List.take_take, Nat.min_eq_left hpBpA]
  · rw [List.append_assoc, List.drop_append_eq_append_drop, htakelen,
      Nat.sub_eq_zero_of_le hord, List.drop_zero, List.drop_take]

/-- Cumulative application, first case: the second-approved hunk `hB`
lies entirely before the first-approved hunk `hA`.  Applying `hA` and
then `hB` sequentially equals applying the combined two-hunk patch
`[hB, hA]` to the base. -/
theorem seq_second_before_first (base : FileText) (hA hB : Hunk)
    (hmA : hunkMatches base hA = true)
    (hmB : hunkMatches base hB = true)
    (hord : hB.oldStart - 1 + oldCount hB ≤ hA.oldStart - 1)
    (hlen : hA.oldStart - 1 + oldCount hA ≤ base.length) :
    applyHunk (spliceHunk base hA) hB = applyPatch base [hB, hA] := by
  obtain ⟨hc1, hc2, hc3⟩ := seq_core base (newLines hA) (hA.oldStart - 1)
    (oldCount hA) (hB.oldStart - 1) (oldCount hB) hord hlen
  have hmatch : hunkMatches (spliceHunk base hA) hB = true := by
    rw [hunkMatches_iff]
    unfold spliceHunk
    rw [hc1]
    exact (hunkMatches_iff base hB).mp hmB
  rw [applyPatch_two base hB hA hmB hmA hord]
  unfold applyHunk
  rw [if_pos hmatch]
  congr 1
  unfold spliceHunk
  rw [hc2, hc3]
  simp [sliceOf, List.append_assoc]

/-- Core list identities for reading at or above the end of a
length-preserving splice: positions from `pA + kA` on are unaffected. -/
theorem seq_core2 (base newA : FileText) (pA kA q : Nat)
    (hpres : newA.length = kA) (hord : pA + kA ≤ q)
    (hlen : pA ≤ base.length) :
    (base.take pA ++ newA ++ base.drop (pA + kA)).drop q = base.drop q ∧
    (base.take pA ++ newA ++ base.drop (pA + kA)).take q =
      (base.take pA ++ newA) ++
        (base.drop (pA + kA)).take (q - (pA + kA)) := by
  have htakelen : (base.take pA).length = pA := List.length_take_of_le hlen
  have hl1len : (base.take pA ++ newA).length = pA + kA := by
    rw [List.length_append, htakelen, hpres]
  constructor
  · rw [List.drop_append_eq_append_drop, hl1len,
      List.drop_eq_nil_of_le (by omega), List.nil_append, List.drop_drop,
      Nat.add_sub_cancel' hord]
  · rw [List.take_append_eq_append_take, hl1len,
      List.take_of_length_le (by omega)]

/-- Cumulative application, second case: the first-approved hunk `hA`
lies entirely before the second-approved hunk `hB` and preserves the line
count.  Applying `hA` then `hB` sequentially equals applying the combined
two-hunk patch `[hA, hB]` to the base. -/
theorem seq_second_after_first (base : FileText) (hA hB : Hunk)
    (hmA : hunkMatches base hA = true)
    (hmB : hunkMatches base hB = true)
    (hpres : (newLines hA).length = oldCount hA)
    (hord : hA.oldStart - 1 + oldCount hA ≤ hB.oldStart - 1)
    (hlenB : hB.oldStart - 1 + oldCount hB ≤ base.length) :
    applyHunk (spliceHunk base hA) hB = applyPatch base [hA, hB] := by
  have hlenA : hA.oldStart - 1 ≤ base.length := by omega
  obtain ⟨hd1, ht1⟩ := seq_core2 base (newLines hA) (hA.oldStart - 1)
    (oldCount hA) (hB.oldStart - 1) hpres hord hlenA
  obtain ⟨hd2, -⟩ := seq_core2 base (newLines hA) (hA.oldStart - 1)
    (oldCount hA) (hB.oldStart - 1 + oldCount hB) hpres (by omega) hlenA
  have hmatch : hunkMatches (spliceHunk base hA) hB = true := by
    rw [hunkMatches_iff]
    unfold spliceHunk
    rw [hd1]
    exact (hunkMatches_iff base hB).mp hmB
  rw [applyPatch_two base hA hB hmA hmB hord]
  unfold applyHunk
  rw [if_pos hmatch]
  congr 1
  unfold spliceHunk
  rw [ht1, hd2]
  simp [sliceOf, List.append_assoc]

/-- Fixture for C3: session on file `f` with content `a,b,c`. -/
def c3Base : ReviewState := ⟨[], ∅, [(['f'], [['a'], ['b'], ['c']])]⟩

/-- Fixture for C3: a hunk inserting `X` after line 1 (changes the line
count). -/
def c3HIns : Hunk := ⟨1, [.ctx ['a'], .add ['X']]⟩

/-- Fixture for C3: a hunk replacing line 3 (`c` by `C`), computed
against the original content. -/
def c3HC : Hunk := ⟨3, [.del ['c'], .add ['C']]⟩

/-- Fixture for C3: suggestion A, highlighting line 1. -/
def c3SIns : Suggestion := ⟨0, ['f'], ['r'], [1], some c3HIns⟩

/-- Fixture for C3: suggestion B, highlighting line 3 (range disjoint
from A's). -/
def c3SC : Suggestion := ⟨1, ['f'], ['r'], [3], some c3HC⟩

/-- Counterexample to C3 as stated: A and B have non-overlapping ranges,
yet approving A (which inserts a line, shifting B's recorded numbers) and
then B does NOT yield the combined-patch result: B's approval fails the
staleness check, `currentContent` stays at `a,X,b,c`, while the combined
patch of A and B yields `a,X,b,C`. -/
theorem c3_counterexample :
    rangesIntersect (rangeOf c3SIns) (rangeOf c3SC) = false ∧
    approveResult (handleApprove c3Base c3SIns) c3SC = .error .staleBase ∧
    lookupFC (handleApprove (handleApprove c3Base c3SIns) c3SC).fileContents
        ['f'] = some [['a'], ['X'], ['b'], ['c']] ∧
    applyPatch [['a'], ['b'], ['c']] [c3HIns, c3HC] =
      some [['a'], ['X'], ['b'], ['C']] ∧
    ([['a'], ['X'], ['b'], ['c']] : FileText) ≠
      [['a'], ['X'], ['b'], ['C']] := by
  refine ⟨by decide, by decide, by decide, by decide, by decide⟩

/-- C3 (amended): approvals are cumulative — each successful approval
sets the file's `currentContent` to the content returned by the apply
operation and records the change, and the next approval reads that
updated content.  Approving A then B yields content identical to applying
A and B as one combined patch PROVIDED B's hunk lies entirely before A's,
or A's hunk preserves the line count and lies entirely before B's; when A
shifts B's recorded lines the second approval is refused as stale instead
(see the counterexample). -/
theorem c3_cumulative :
    (∀ st s st', approveResult st s = .ok st' →
      ∃ cur modified, lookupFC st.fileContents s.file = some cur ∧
        applySuggestion st.approvedChanges s.file cur s = .ok modified ∧
        lookupFC st'.fileContents s.file = some modified ∧
        st'.approvedChanges =
          st.approvedChanges ++ [mkChange s cur modified]) ∧
    (∀ base hA hB, hunkMatches base hA = true →
      hunkMatches base hB = true →
      hB.oldStart - 1 + oldCount hB ≤ hA.oldStart - 1 →
      hA.oldStart - 1 + oldCount hA ≤ base.length →
      applyHunk (spliceHunk base hA) hB = applyPatch base [hB, hA]) ∧
    (∀ base hA hB, hunkMatches base hA = true →
      hunkMatches base hB = true →
      (newLines hA).length = oldCount hA →
      hA.oldStart - 1 + oldCount hA ≤ hB.oldStart - 1 →
      hB.oldStart - 1 + oldCount hB ≤ base.length →
      applyHunk (spliceHunk base hA) hB = applyPatch base [hA, hB]) := by
  refine ⟨?_, seq_second_before_first, seq_second_after_first⟩
  intro st s st' h
  obtain ⟨cur, modified, hl, ha, hst⟩ := approveResult_ok st s st' h
  refine ⟨cur, modified, hl, ha, ?_, by rw [hst]⟩
  rw [hst]
  exact lookupFC_updateFC_self _ _ _

/-- Fixture for C3's witness: a line-count-preserving hunk at line 2. -/
def c3HMid : Hunk := ⟨2, [.del ['b'], .add ['B']]⟩

/-- Fixture for C3's witness: a hunk at line 1, below `c3HMid`. -/
def c3HLow : Hunk := ⟨1, [.del ['a'], .add ['A']]⟩

/-- Witness for the amended C3: the ledger clause at a successful
approval, and both combined-patch cases at concrete hunks. -/
theorem c3_witness :
    (∃ cur modified,
      lookupFC c3Base.fileContents (['f']) = some cur ∧
      applySuggestion c3Base.approvedChanges (['f']) cur
        ⟨0, ['f'], ['r'], [2], some c3HMid⟩ = .ok modified ∧
      lookupFC (handleApprove c3Base
          ⟨0, ['f'], ['r'], [2], some c3HMid⟩).fileContents (['f']) =
        some modified ∧
      (handleApprove c3Base
          ⟨0, ['f'], ['r'], [2], some c3HMid⟩).approvedChanges =
        c3Base.approvedChanges ++
          [mkChange ⟨0, ['f'], ['r'], [2], some c3HMid⟩ cur modified]) ∧
    applyHunk (spliceHunk [['a'], ['b'], ['c']] c3HMid) c3HLow =
      applyPatch [['a'], ['b'], ['c']] [c3HLow, c3HMid] ∧
    applyHunk (spliceHunk [['a'], ['b'], ['c']] c3HMid) c3HC =
      applyPatch [['a'], ['b'], ['c']] [c3HMid, c3HC] := by
  refine ⟨?_, ?_, ?_⟩
  · obtain ⟨cur, modified, h1, h2, h3, h4⟩ := c3_cumulative.1 c3Base
      ⟨0, ['f'], ['r'], [2], some c3HMid⟩
      (handleApprove c3Base ⟨0, ['f'], ['r'], [2], some c3HMid⟩)
      (by decide)
    exact ⟨cur, modified, h1, h2, h3, h4⟩
  · exact c3_cumulative.2.1 [['a'], ['b'], ['c']] c3HMid c3HLow
      (by decide) (by decide) (by decide) (by decide)
  · exact c3_cumulative.2.2 [['a'], ['b'], ['c']] c3HMid c3HC
      (by decide) (by decide) (by decide) (by decide) (by decide)
